import Mathlib

/-!
Verification of the Job Orchestration & State Engine of
`etc_meisai_scraper` (Go), shallowly embedded in Lean 4.

The embedding follows `src/services/download_service.go`,
`src/services/download_service_grpc.go` and the second copy of the gRPC
facade (the file holding `LogBuffer`).  Go strings are Lean `String`s,
Go `int` values that the code keeps in `0..100` are `Nat`, timestamps are
`Nat` tick counters, and the in-memory job map is an association list.
-/

namespace EtcMeisai


/-! ### Go standard-library string helpers

`goSplit` models `strings.Split(s, sep)` for a one-character separator:
it splits around every occurrence of the separator and always returns at
least one (possibly empty) part; `strings.Split("", ":") = [""]`.
-/

/-- Split a character list around every occurrence of `c`
(the semantics of Go `strings.Split` with a one-character separator). -/
def splitCharList (c : Char) : List Char → List (List Char)
  | [] => [[]]
  | x :: xs =>
    match splitCharList c xs with
    | [] => [[]]
    | p :: ps => if x = c then [] :: p :: ps else (x :: p) :: ps

/-- Go `strings.Split(s, c)` for a one-character separator `c`. -/
def goSplit (s : String) (c : Char) : List String :=
  (splitCharList c s.toList).map (fun l => ⟨l⟩)

/-- Go `strings.Join(parts, c)` for a one-character separator `c`. -/
def goJoin (parts : List String) (c : Char) : String :=
  ⟨List.intercalate [c] (parts.map String.toList)⟩

/-- The white-space predicate of Go `unicode.IsSpace` restricted to the
characters it recognises in Latin-1: space, tab, newline, vertical tab,
form feed, carriage return, NEL and NBSP. -/
def goIsSpace (ch : Char) : Bool :=
  ch = ' ' || ch = '\t' || ch = '\n' || ch = (Char.ofNat 11) ||
  ch = (Char.ofNat 12) || ch = '\r' || ch = (Char.ofNat 0x85) ||
  ch = (Char.ofNat 0xA0)

/-- Go `strings.TrimSpace`: drop leading and trailing white space. -/
def goTrimSpace (s : String) : String :=
  ⟨((s.toList.dropWhile goIsSpace).reverse.dropWhile goIsSpace).reverse⟩

/-- Go `strings.HasPrefix`. -/
def goHasPrefix (s pre : String) : Bool :=
  pre.toList.isPrefixOf s.toList

/-! ### Log Ring Buffer

Embeds `LogBuffer` (`NewLogBuffer`, `Add`, `GetTail`, `GetAll`).  Go
slices become Lean lists kept in arrival order; `GetTail` takes a Go
`int`, modelled as `Int` so that non-positive arguments are expressible.
-/

structure LogBuffer where
  lines : List String
  maxLines : Nat
deriving DecidableEq, Repr

/-- `NewLogBuffer(maxLines)`. -/
def NewLogBuffer (maxLines : Nat) : LogBuffer :=
  { lines := [], maxLines := maxLines }

/-- `LogBuffer.Add`: append the line, then if the size exceeds
`maxLines` drop the single oldest entry (`lb.lines = lb.lines[1:]`). -/
def LogBuffer.Add (lb : LogBuffer) (line : String) : LogBuffer :=
  let ls := lb.lines ++ [line]
  { lb with lines := if lb.maxLines < ls.length then ls.drop 1 else ls }

/-- `LogBuffer.GetTail(n)`: clamp `n` to the current size (a
non-positive or too-large `n` becomes the full size), then return the
last `n` lines.  The Go `if start < 0 { start = 0 }` branch is dead
(after clamping `n ≤ len`); natural subtraction models it directly. -/
def LogBuffer.GetTail (lb : LogBuffer) (n : Int) : List String :=
  let len := lb.lines.length
  let n' : Nat := if n ≤ 0 ∨ (len : Int) < n then len else n.toNat
  lb.lines.drop (len - n')

/-- `LogBuffer.GetAll`: full snapshot copy. -/
def LogBuffer.GetAll (lb : LogBuffer) : List String :=
  lb.lines

/-! ### Account masking (RPC facade)

Embeds `maskAccountString` (identical in both copies of the facade):
split on commas, mask each entry that has a password segment as
`parts[0] + ":*******"`, and join back with commas.
-/

/-- One iteration of the masking loop in `maskAccountString`. -/
def maskAccount (account : String) : String :=
  let parts := goSplit account ':'
  if 2 ≤ parts.length then (parts.headD "") ++ ":*******" else account

/-- `maskAccountString(accountStr)`. -/
def maskAccountString (accountStr : String) : String :=
  if accountStr = "" then ""
  else goJoin ((goSplit accountStr ',').map maskAccount) ','

/-! ### Credential parsing inside the orchestrator

`downloadAccountData` starts with
`parts := strings.Split(accountID, ":")`; fewer than two parts is an
error, otherwise it uses `userID := parts[0]`, `password := parts[1]`.
-/

/-- The credential-parsing prefix of `downloadAccountData`: `none` is
the `invalid account format` error return, `some (userID, password)`
the pair handed to the scraper configuration. -/
def parseAccountCredential (account : String) : Option (String × String) :=
  match goSplit account ':' with
  | p0 :: p1 :: _ => some (p0, p1)
  | _ => none

/-! ### Headless-mode flag

`GetHeadlessMode` reads `ETC_HEADLESS` (here passed explicitly as the
environment value; Go `os.Getenv` yields `""` when unset), defaults to
`true` when it is empty or `strconv.ParseBool` fails, and otherwise
returns the parsed boolean.
-/

/-- Go `strconv.ParseBool`: the exact literal sets it accepts. -/
def goParseBool (s : String) : Option Bool :=
  if s = "1" ∨ s = "t" ∨ s = "T" ∨ s = "true" ∨ s = "TRUE" ∨ s = "True"
  then some true
  else if s = "0" ∨ s = "f" ∨ s = "F" ∨ s = "false" ∨ s = "FALSE" ∨
      s = "False"
  then some false
  else none

/-- `GetHeadlessMode` with the `ETC_HEADLESS` value passed in. -/
def GetHeadlessMode (headlessEnv : String) : Bool :=
  if headlessEnv = "" then true
  else
    match goParseBool headlessEnv with
    | some headless => headless
    | none => true

/-! ### Go `encoding/json` Unmarshal into `[]string`

`parseAccountsString` calls `json.Unmarshal([]byte(s), &jsonAccounts)`
with `jsonAccounts []string`.  The model below parses a JSON array of
strings: JSON whitespace is space/tab/LF/CR; string literals support the
standard escapes including `\uXXXX` with UTF-16 surrogate pairs (a lone
or malformed surrogate decodes to U+FFFD, as Go's unquoting does);
unescaped control characters are a syntax error; an array element that
is JSON `null` leaves the Go string at its zero value `""`; any other
element shape, malformed syntax, or trailing non-whitespace data makes
`Unmarshal` return an error (`none` here).  A top-level `null` succeeds
and leaves the slice `nil`.
-/

/-- JSON insignificant whitespace. -/
def jsonWs (ch : Char) : Bool :=
  ch = ' ' || ch = '\t' || ch = '\n' || ch = '\r'

def skipJsonWs (cs : List Char) : List Char :=
  cs.dropWhile jsonWs

/-- Single-character JSON escapes. -/
def jsonEscapeChar (e : Char) : Option Char :=
  if e = '"' then some '"'
  else if e = '\\' then some '\\'
  else if e = '/' then some '/'
  else if e = 'b' then some (Char.ofNat 8)
  else if e = 'f' then some (Char.ofNat 12)
  else if e = 'n' then some '\n'
  else if e = 'r' then some '\r'
  else if e = 't' then some '\t'
  else none

def hexVal (ch : Char) : Option Nat :=
  if '0' ≤ ch ∧ ch ≤ '9' then some (ch.toNat - '0'.toNat)
  else if 'a' ≤ ch ∧ ch ≤ 'f' then some (ch.toNat - 'a'.toNat + 10)
  else if 'A' ≤ ch ∧ ch ≤ 'F' then some (ch.toNat - 'A'.toNat + 10)
  else none

def parse4Hex : List Char → Option (Nat × List Char)
  | a :: b :: c :: d :: rest => do
    let va ← hexVal a
    let vb ← hexVal b
    let vc ← hexVal c
    let vd ← hexVal d
    pure (((va * 16 + vb) * 16 + vc) * 16 + vd, rest)
  | _ => none

/-- Parse the body of a JSON string literal (the opening quote already
consumed); returns the decoded characters and the input after the
closing quote.  `fuel` only bounds recursion; every step consumes at
least one input character, so `length + 1` fuel never runs out. -/
def parseJsonStringBody : Nat → List Char → Option (List Char × List Char)
  | 0, _ => none
  | _ + 1, [] => none
  | fuel + 1, ch :: rest =>
    if ch = '"' then some ([], rest)
    else if ch = '\\' then
      match rest with
      | [] => none
      | e :: rest1 =>
        if e = 'u' then
          match parse4Hex rest1 with
          | none => none
          | some (n, rest2) =>
            if 0xD800 ≤ n ∧ n ≤ 0xDBFF then
              match rest2 with
              | '\\' :: 'u' :: rest3 =>
                match parse4Hex rest3 with
                | some (m, rest4) =>
                  if 0xDC00 ≤ m ∧ m ≤ 0xDFFF then
                    (parseJsonStringBody fuel rest4).map fun p =>
                      (Char.ofNat
                          (0x10000 + (n - 0xD800) * 0x400 + (m - 0xDC00))
                        :: p.1, p.2)
                  else
                    (parseJsonStringBody fuel rest2).map fun p =>
                      (Char.ofNat 0xFFFD :: p.1, p.2)
                | none =>
                  (parseJsonStringBody fuel rest2).map fun p =>
                    (Char.ofNat 0xFFFD :: p.1, p.2)
              | _ =>
                (parseJsonStringBody fuel rest2).map fun p =>
                  (Char.ofNat 0xFFFD :: p.1, p.2)
            else if 0xDC00 ≤ n ∧ n ≤ 0xDFFF then
              (parseJsonStringBody fuel rest2).map fun p =>
                (Char.ofNat 0xFFFD :: p.1, p.2)
            else
              (parseJsonStringBody fuel rest2).map fun p =>
                (Char.ofNat n :: p.1, p.2)
        else
          match jsonEscapeChar e with
          | some c => (parseJsonStringBody fuel rest1).map fun p =>
              (c :: p.1, p.2)
          | none => none
    else if ch.toNat < 0x20 then none
    else (parseJsonStringBody fuel rest).map fun p => (ch :: p.1, p.2)

/-- One array element destined for a Go `string`: a string literal, or
`null` (which leaves the element at its zero value). -/
def parseJsonElem (cs : List Char) : Option (String × List Char) :=
  match skipJsonWs cs with
  | '"' :: rest =>
    (parseJsonStringBody (rest.length + 1) rest).map fun p => (⟨p.1⟩, p.2)
  | 'n' :: 'u' :: 'l' :: 'l' :: rest => some ("", rest)
  | _ => none

/-- Elements of a non-empty JSON array, starting at the first element;
consumes the closing bracket. -/
def parseJsonArrayTail : Nat → List Char → Option (List String × List Char)
  | 0, _ => none
  | fuel + 1, cs =>
    match parseJsonElem cs with
    | none => none
    | some (s, rest) =>
      match skipJsonWs rest with
      | ']' :: rest1 => some ([s], rest1)
      | ',' :: rest1 =>
        (parseJsonArrayTail fuel rest1).map fun p => (s :: p.1, p.2)
      | _ => none

/-- `json.Unmarshal([]byte(s), &jsonAccounts)` for `[]string`:
`some` is a nil error together with the resulting slice. -/
def goUnmarshalStringArray (s : String) : Option (List String) :=
  match skipJsonWs s.toList with
  | '[' :: rest =>
    match skipJsonWs rest with
    | ']' :: rest1 => if skipJsonWs rest1 = [] then some [] else none
    | _ =>
      match parseJsonArrayTail (rest.length + 1) rest with
      | some (elems, rest1) =>
          if skipJsonWs rest1 = [] then some elems else none
      | none => none
  | 'n' :: 'u' :: 'l' :: 'l' :: rest =>
      if skipJsonWs rest = [] then some [] else none
  | _ => none

/-- `parseAccountsString`: empty input yields no accounts; a trimmed
input starting with `[` is tried as a JSON string array, falling back
to a comma split on parse error; anything else is comma-split. -/
def parseAccountsString (accountsStr : String) : List String :=
  if accountsStr = "" then []
  else if goHasPrefix (goTrimSpace accountsStr) "[" then
    match goUnmarshalStringArray accountsStr with
    | some jsonAccounts => jsonAccounts
    | none => goSplit accountsStr ','
  else goSplit accountsStr ','

/-! ### Job Store

Embeds `DownloadJob` and the store operations of `DownloadService`
(`ProcessAsync`'s synchronous insert, `updateJobProgress`,
`updateJobStatus`, the loop-completion write, `GetJobStatus`).  The Go
map `jobs map[string]*DownloadJob` is an association list; `time.Now()`
values are `Nat` ticks passed in explicitly; Go's zero values for the
fields `ProcessAsync` leaves unset are `0`, `""` and `nil`.
-/

structure DownloadJob where
  id : String
  status : String
  progress : Nat
  totalRecords : Nat
  errorMessage : String
  startedAt : Nat
  completedAt : Option Nat
deriving DecidableEq, Repr

abbrev JobStore := List (String × DownloadJob)

/-- Go map assignment `s.jobs[jobID] = job`. -/
def storeInsert (s : JobStore) (jobID : String) (job : DownloadJob) :
    JobStore :=
  (jobID, job) :: s.filter (fun p => p.1 ≠ jobID)

/-- Go `if job, exists := s.jobs[jobID]; exists { mutate job }` —
mutation through the pointer, a no-op when the id is absent. -/
def storeUpdate (s : JobStore) (jobID : String)
    (f : DownloadJob → DownloadJob) : JobStore :=
  s.map (fun p => if p.1 = jobID then (p.1, f p.2) else p)

/-- The synchronous prefix of `ProcessAsync`: insert a fresh job with
status `processing`, progress 0 and `StartedAt = now`. -/
def processAsyncCreate (s : JobStore) (jobID : String) (now : Nat) :
    JobStore :=
  storeInsert s jobID
    { id := jobID, status := "processing", progress := 0,
      totalRecords := 0, errorMessage := "", startedAt := now,
      completedAt := none }

/-- `updateJobProgress`. -/
def updateJobProgress (s : JobStore) (jobID : String) (progress : Nat) :
    JobStore :=
  storeUpdate s jobID (fun job => { job with progress := progress })

/-- `updateJobStatus`: set status and progress, keep a prior error
message unless the new one is non-empty, and stamp `CompletedAt` when
the new status is terminal. -/
def updateJobStatus (s : JobStore) (jobID status : String)
    (progress : Nat) (errorMsg : String) (now : Nat) : JobStore :=
  storeUpdate s jobID (fun job =>
    let job1 := { job with status := status, progress := progress }
    let job2 := if errorMsg ≠ "" then { job1 with errorMessage := errorMsg }
      else job1
    if status = "completed" ∨ status = "failed" then
      { job2 with completedAt := some now }
    else job2)

/-- The loop-completion write at the end of the async unit: status
`completed`, progress 100, `CompletedAt` stamped (the error message is
left untouched). -/
def completeJob (s : JobStore) (jobID : String) (now : Nat) : JobStore :=
  storeUpdate s jobID (fun job =>
    { job with
      status := "completed"
      progress := 100
      completedAt := some now })

/-- `GetJobStatus`: `some` a value copy, `none` when unknown. -/
def GetJobStatus (s : JobStore) (jobID : String) : Option DownloadJob :=
  s.lookup jobID

/-- The per-iteration progress value of the async loop,
`int(float64(i+1)/float64(totalAccounts)*100)`.  Go computes the value
through `float64`; the model uses the exact integer floor.  The
theorems below use only monotonicity in `i` and the endpoint
`i + 1 = totalAccounts ↦ 100`, on which the two computations agree. -/
def loopProgress (totalAccounts i : Nat) : Nat :=
  (i + 1) * 100 / totalAccounts

/-- The store writes the program performs, in the shapes it performs
them: job creation, a loop progress write, the panic handler's
`updateJobStatus(jobID, "failed", 0, msg)`, and the loop-completion
write. -/
inductive StoreOp where
  | create (jobID : String) (now : Nat)
  | progress (jobID : String) (p : Nat)
  | fail (jobID : String) (errorMsg : String) (now : Nat)
  | complete (jobID : String) (now : Nat)
deriving DecidableEq, Repr

def applyOp (s : JobStore) : StoreOp → JobStore
  | .create jobID now => processAsyncCreate s jobID now
  | .progress jobID p => updateJobProgress s jobID p
  | .fail jobID errorMsg now => updateJobStatus s jobID "failed" 0 errorMsg now
  | .complete jobID now => completeJob s jobID now

def applyOps (s : JobStore) (ops : List StoreOp) : JobStore :=
  ops.foldl applyOp s

/-! ### The async unit, fault-free run

`ProcessAsync` spawns a goroutine that logs a start line, iterates the
accounts sequentially — progress write, `downloadAccountData`, error
only logged — and finally writes the completion record.  The Retrieval
Capability (scraper creation, `Initialize`, `Login`, `DownloadMeisai`,
`Close`) is out of scope and enters as an opaque oracle
`retrieve : userID → password → Except error ()`; it never touches the
job store.  `time.Sleep` has no observable effect here.
-/

/-- `downloadAccountData` as seen by the job: parse the credential
(`invalid account format` error when there is no colon), then run the
opaque retrieval for the parsed pair. -/
def downloadAccountData (retrieve : String → String → Except String Unit)
    (account : String) : Except String Unit :=
  match parseAccountCredential account with
  | none => .error ("invalid account format: " ++ account ++
      " (expected accountID:password)")
  | some (userID, password) => retrieve userID password

/-- One iteration of the account loop: progress write, then the
download whose failure is appended to the log stream only. -/
def asyncLoopStep (retrieve : String → String → Except String Unit)
    (jobID : String) (totalAccounts : Nat)
    (st : JobStore × List String) (ia : Nat × String) :
    JobStore × List String :=
  let s1 := updateJobProgress st.1 jobID (loopProgress totalAccounts ia.1)
  match downloadAccountData retrieve ia.2 with
  | .error e =>
      (s1, st.2 ++ ["Error downloading data for account " ++ ia.2 ++
        ": " ++ e])
  | .ok _ => (s1, st.2)

/-- `ProcessAsync` together with its async unit run to the end without
a panic: create, loop, completion write; returns the store and the
emitted log lines. -/
def processAsyncFaultFree (retrieve : String → String → Except String Unit)
    (s : JobStore) (jobID : String) (accounts : List String)
    (t0 t1 : Nat) : JobStore × List String :=
  let s0 := processAsyncCreate s jobID t0
  let looped := accounts.enum.foldl
    (asyncLoopStep retrieve jobID accounts.length)
    (s0, ["Starting download job " ++ jobID])
  (completeJob looped.1 jobID t1,
    looped.2 ++ ["Completed download job " ++ jobID])

/-- The store-op trace of a fault-free `ProcessAsync` run over
`totalAccounts` accounts. -/
def faultFreeOps (jobID : String) (totalAccounts t0 t1 : Nat) :
    List StoreOp :=
  StoreOp.create jobID t0 ::
    ((List.range totalAccounts).map
      (fun i => StoreOp.progress jobID (loopProgress totalAccounts i))
     ++ [StoreOp.complete jobID t1])

/-- The progress a `GetJobStatus` poll observes (0 before the job
exists). -/
def progressOf (s : JobStore) (jobID : String) : Nat :=
  ((s.lookup jobID).map DownloadJob.progress).getD 0

/-! ### Configured accounts and the RPC facade's DownloadAsync

The environment variables the account functions read, passed as an
explicit record (`os.Getenv` yields `""` for an unset variable).
-/

structure Env where
  etcCorpAccounts : String
  etcCorporateAccounts : String
  etcPersonalAccounts : String
deriving DecidableEq, Repr

/-- `GetAllAccountsWithCredentials`: prefer `ETC_CORP_ACCOUNTS`,
otherwise concatenate the parsed legacy corporate and personal lists. -/
def GetAllAccountsWithCredentials (env : Env) : List String :=
  if env.etcCorpAccounts ≠ "" then
    parseAccountsString env.etcCorpAccounts
  else
    (if env.etcCorporateAccounts ≠ "" then
      parseAccountsString env.etcCorporateAccounts
     else []) ++
    (if env.etcPersonalAccounts ≠ "" then
      parseAccountsString env.etcPersonalAccounts
     else [])

/-- `GetAllAccountIDs`: trim each credential string, split on `":"`,
and keep `parts[0]` when at least one part results (a split always has
at least one part, so every entry contributes). -/
def GetAllAccountIDs (env : Env) : List String :=
  (GetAllAccountsWithCredentials env).filterMap (fun accountStr =>
    match goSplit (goTrimSpace accountStr) ':' with
    | p0 :: _ => some p0
    | [] => none)

structure DownloadJobResponse where
  jobId : String
  status : String
  message : String
deriving DecidableEq, Repr

/-- The tail both `DownloadAsync` copies share once an account list is
settled: generate the job id (passed in, modelling `uuid.New()`),
synchronously register the job via `ProcessAsync`, and answer
`pending`.  The third component records the `(jobID, accounts)`
argument handed to `ProcessAsync`. -/
def downloadAsyncStart (s : JobStore) (newJobID : String) (now : Nat)
    (accounts : List String) :
    DownloadJobResponse × JobStore × Option (String × List String) :=
  ({ jobId := newJobID, status := "pending"
     message := "Download job started" },
   processAsyncCreate s newJobID now, some (newJobID, accounts))

/-- `DownloadAsync` as in `download_service_grpc.go`: an empty request
list falls back to `GetAllAccountIDs`. -/
def DownloadAsyncIDs (env : Env) (s : JobStore) (reqAccounts : List String)
    (newJobID : String) (now : Nat) :
    DownloadJobResponse × JobStore × Option (String × List String) :=
  if reqAccounts.length = 0 then
    let accounts := GetAllAccountIDs env
    if accounts.length = 0 then
      ({ jobId := "", status := "failed"
         message := "No accounts configured" }, s, none)
    else downloadAsyncStart s newJobID now accounts
  else downloadAsyncStart s newJobID now reqAccounts

/-- `DownloadAsync` as in the facade copy holding `LogBuffer`: an empty
request list falls back to `GetAllAccountsWithCredentials`. -/
def DownloadAsyncCreds (env : Env) (s : JobStore)
    (reqAccounts : List String) (newJobID : String) (now : Nat) :
    DownloadJobResponse × JobStore × Option (String × List String) :=
  if reqAccounts.length = 0 then
    let accounts := GetAllAccountsWithCredentials env
    if accounts.length = 0 then
      ({ jobId := "", status := "failed"
         message := "No accounts configured" }, s, none)
    else downloadAsyncStart s newJobID now accounts
  else downloadAsyncStart s newJobID now reqAccounts

/-! ### C2: `CompletedAt` is set exactly on terminal status -/

/-- The per-record invariant of C2. -/
def CompletedAtInv (j : DownloadJob) : Prop :=
  j.completedAt.isSome ↔ (j.status = "completed" ∨ j.status = "failed")

/-! ### Theorems -/

/-! Basic facts about `splitCharList`. -/

theorem splitCharList_ne_nil (c : Char) (l : List Char) :
    splitCharList c l ≠ [] := by
  induction l with
  | nil => simp [splitCharList]
  | cons x xs ih =>
    simp only [splitCharList]
    rcases h : splitCharList c xs with _ | ⟨p, ps⟩
    · simp
    · by_cases hx : x = c <;> simp [hx]

/-- The first part of the split is everything before the first separator. -/
theorem splitCharList_head (c : Char) (l : List Char) :
    (splitCharList c l).headD [] = l.takeWhile (fun x => x ≠ c) := by
  induction l with
  | nil => simp [splitCharList]
  | cons x xs ih =>
    simp only [splitCharList]
    rcases h : splitCharList c xs with _ | ⟨p, ps⟩
    · exact absurd h (splitCharList_ne_nil c xs)
    · by_cases hx : x = c
      · simp [hx, List.takeWhile]
      · simp only [hx, if_false, List.headD_cons, List.takeWhile]
        simp only [h, List.headD_cons] at ih
        simp [hx, ih]

/-- The split has at least two parts exactly when the separator occurs. -/
theorem splitCharList_two_le_iff (c : Char) (l : List Char) :
    2 ≤ (splitCharList c l).length ↔ c ∈ l := by
  induction l with
  | nil => simp [splitCharList]
  | cons x xs ih =>
    simp only [splitCharList]
    rcases h : splitCharList c xs with _ | ⟨p, ps⟩
    · exact absurd h (splitCharList_ne_nil c xs)
    · rw [h] at ih
      by_cases hx : x = c
      · simp [hx]
      · simp only [hx, if_false, List.length_cons, List.mem_cons]
        simpa [Ne.symm hx, eq_comm] using ih

/-- C8: with positive capacity, `Add` appends and, when the size would
exceed the capacity, evicts exactly the single oldest entry; `GetTail n`
with `0 < n` returns the last `min n size` lines in arrival order (a
suffix of the buffer); `GetTail n` with `n ≤ 0` returns everything; and
a capacity-3 buffer fed `L1,L2,L3,L4` holds `[L2,L3,L4]`, with
`GetTail 2 = [L3,L4]`. -/
theorem C8_logBuffer_fifo (lb : LogBuffer) (line : String) (n : Int)
    (hcap : 0 < lb.maxLines) :
    ((lb.Add line).lines =
      if lb.maxLines < lb.lines.length + 1 then lb.lines.tail ++ [line]
      else lb.lines ++ [line])
    ∧ (0 < n → (lb.GetTail n).length = min n.toNat lb.lines.length ∧
        (lb.GetTail n).IsSuffix lb.lines)
    ∧ (n ≤ 0 → lb.GetTail n = lb.lines)
    ∧ ((((((NewLogBuffer 3).Add "L1").Add "L2").Add "L3").Add "L4").lines
          = ["L2", "L3", "L4"]
       ∧ ((((((NewLogBuffer 3).Add "L1").Add "L2").Add "L3").Add
            "L4").GetTail 2) = ["L3", "L4"]) := by
  refine ⟨?_, ?_, ?_, by decide⟩
  · unfold LogBuffer.Add
    rcases hl : lb.lines with _ | ⟨x, xs⟩
    · have : ¬ lb.maxLines < 1 := by omega
      simp [this]
    · by_cases h : lb.maxLines < (x :: xs).length + 1 <;> simp [h]
  · intro hn
    unfold LogBuffer.GetTail
    have hn' : ¬ n ≤ 0 := by omega
    by_cases h : (lb.lines.length : Int) < n
    · have hlen : lb.lines.length ≤ n.toNat := by omega
      simp only [hn', h, or_true, if_true, false_or]
      constructor
      · simp [Nat.min_eq_right hlen]
      · simp
    · have hlen : n.toNat ≤ lb.lines.length := by omega
      simp only [hn', h, or_false, if_false, false_or]
      constructor
      · simp [List.length_drop, Nat.min_eq_left hlen]
        omega
      · exact List.drop_suffix _ _
  · intro hn
    unfold LogBuffer.GetTail
    simp [hn]

/-- Witness for `C8_logBuffer_fifo` at a concrete buffer. -/
theorem C8_logBuffer_fifo_witness :
    0 < (LogBuffer.mk ["a", "b"] 2).maxLines ∧
    (((LogBuffer.mk ["a", "b"] 2).Add "c").lines =
      if (LogBuffer.mk ["a", "b"] 2).maxLines <
          (LogBuffer.mk ["a", "b"] 2).lines.length + 1 then
        (LogBuffer.mk ["a", "b"] 2).lines.tail ++ ["c"]
      else (LogBuffer.mk ["a", "b"] 2).lines ++ ["c"])
    ∧ (0 < (1 : Int) →
        ((LogBuffer.mk ["a", "b"] 2).GetTail 1).length =
          min (1 : Int).toNat (LogBuffer.mk ["a", "b"] 2).lines.length ∧
        ((LogBuffer.mk ["a", "b"] 2).GetTail 1).IsSuffix
          (LogBuffer.mk ["a", "b"] 2).lines)
    ∧ ((1 : Int) ≤ 0 → (LogBuffer.mk ["a", "b"] 2).GetTail 1 =
        (LogBuffer.mk ["a", "b"] 2).lines)
    ∧ ((((((NewLogBuffer 3).Add "L1").Add "L2").Add "L3").Add "L4").lines
          = ["L2", "L3", "L4"]
       ∧ ((((((NewLogBuffer 3).Add "L1").Add "L2").Add "L3").Add
            "L4").GetTail 2) = ["L3", "L4"]) :=
  ⟨by decide, C8_logBuffer_fifo (LogBuffer.mk ["a", "b"] 2) "c" 1 (by decide)⟩

theorem maskAccount_eq (a : String) :
    maskAccount a =
      if ':' ∈ a.toList then
        (⟨a.toList.takeWhile (fun ch => ch ≠ ':')⟩ : String) ++ ":*******"
      else a := by
  unfold maskAccount goSplit
  have h2 := splitCharList_two_le_iff ':' a.toList
  have hh := splitCharList_head ':' a.toList
  rcases h : splitCharList ':' a.toList with _ | ⟨p, ps⟩
  · exact absurd h (splitCharList_ne_nil ':' a.toList)
  · rw [h] at h2 hh
    simp only [List.headD_cons] at hh
    by_cases hc : ':' ∈ a.toList
    · have hps : 1 ≤ ps.length := by simpa using h2.mpr hc
      simp [hps, hc, hh]
      rw [if_pos (show ':' ∈ a.data from hc)]
    · have hps : ¬ 1 ≤ ps.length := by
        intro hk
        exact hc (h2.mp (by simpa using hk))
      simp [hps, hc]
      rw [if_neg (show ':' ∉ a.data from hc)]

/-- C7: `maskAccountString` replaces, in every comma-separated entry
containing a colon, everything after the first colon by exactly seven
asterisks (keeping the account id, the part before the first colon),
leaves colon-free entries unchanged, and rejoins with commas; concretely
`"alice:secret,bob:hunter2"` masks to `"alice:*******,bob:*******"`. -/
theorem C7_maskAccountString (s : String) :
    maskAccountString s =
      goJoin ((goSplit s ',').map (fun a =>
        if ':' ∈ a.toList then
          (⟨a.toList.takeWhile (fun ch => ch ≠ ':')⟩ : String) ++ ":*******"
        else a)) ','
    ∧ maskAccountString "alice:secret,bob:hunter2" =
        "alice:*******,bob:*******" := by
  constructor
  · by_cases hs : s = ""
    · subst hs; decide
    · unfold maskAccountString
      rw [if_neg hs]
      congr 1
      exact List.map_congr_left fun a _ => maskAccount_eq a
  · decide

/-- Unfold one layer of `splitCharList`: the first part is everything
before the first separator, and the remaining parts are the split of
what follows the first separator (none when the separator is absent). -/
theorem splitCharList_eq_cons (c : Char) (l : List Char) :
    splitCharList c l =
      l.takeWhile (fun x => x ≠ c) ::
        (if c ∈ l then splitCharList c ((l.dropWhile (fun x => x ≠ c)).drop 1)
         else []) := by
  induction l with
  | nil => simp [splitCharList]
  | cons x xs ih =>
    by_cases hx : x = c
    · subst hx
      rcases h : splitCharList x xs with _ | ⟨p, ps⟩
      · exact absurd h (splitCharList_ne_nil x xs)
      · simp [splitCharList, h, List.takeWhile, List.dropWhile]
    · simp only [splitCharList]
      rw [ih]
      simp [List.takeWhile, List.dropWhile, hx, List.mem_cons, Ne.symm hx]

/-- C4 (amended): the orchestrator's credential parse keeps the text
before the first colon as the account id and, as the password, only the
segment strictly between the first and second colon (anything after a
second colon is dropped); a string without any colon is the
`invalid account format` error. -/
theorem C4_parseAccountCredential_segments (account : String) :
    parseAccountCredential account =
      if ':' ∈ account.toList then
        some ((⟨account.toList.takeWhile (fun ch => ch ≠ ':')⟩ : String),
          (⟨((account.toList.dropWhile (fun ch => ch ≠ ':')).drop
              1).takeWhile (fun ch => ch ≠ ':')⟩ : String))
      else none := by
  unfold parseAccountCredential goSplit
  rw [splitCharList_eq_cons]
  by_cases hc : ':' ∈ account.toList
  · rw [if_pos hc, if_pos hc]
    have hne := splitCharList_ne_nil ':'
      ((account.toList.dropWhile (fun x => x ≠ ':')).drop 1)
    have hh := splitCharList_head ':'
      ((account.toList.dropWhile (fun x => x ≠ ':')).drop 1)
    rcases h : splitCharList ':'
        ((account.toList.dropWhile (fun x => x ≠ ':')).drop 1)
      with _ | ⟨p, ps⟩
    · exact absurd h hne
    · rw [h] at hh
      simp only [List.headD_cons] at hh
      simp [hh]
  · rw [if_neg hc, if_neg hc]
    simp

/-- C4 counterexample: on `"id:pa:ss"` the code's password is `"pa"`,
not the whole remainder `"pa:ss"` after the first colon as claimed. -/
theorem C4_counterexample :
    parseAccountCredential "id:pa:ss" = some ("id", "pa") ∧
    parseAccountCredential "id:pa:ss" ≠ some ("id", "pa:ss") := by
  decide

/-- C9 (amended): headless mode is `true` when the variable is unset or
unparsable, and `false` exactly for the six literals `strconv.ParseBool`
maps to `false` — `"0"`, `"f"`, `"F"`, `"false"`, `"FALSE"`, `"False"`;
`"no"` is not among them. -/
theorem C9_headless_false_iff (s : String) :
    GetHeadlessMode s = false ↔
      s ∈ (["0", "f", "F", "false", "FALSE", "False"] : List String) := by
  unfold GetHeadlessMode goParseBool
  by_cases hs : s = ""
  · subst hs; decide
  · rw [if_neg hs]
    by_cases ht : s = "1" ∨ s = "t" ∨ s = "T" ∨ s = "true" ∨ s = "TRUE" ∨
        s = "True"
    · rw [if_pos ht]
      have hf : s ∉ (["0", "f", "F", "false", "FALSE", "False"] :
          List String) := by
        rcases ht with h | h | h | h | h | h <;> subst h <;> decide
      simp [hf]
    · rw [if_neg ht]
      by_cases hf : s = "0" ∨ s = "f" ∨ s = "F" ∨ s = "false" ∨
          s = "FALSE" ∨ s = "False"
      · rw [if_pos hf]
        constructor
        · intro _
          simpa using hf
        · intro _
          rfl
      · rw [if_neg hf]
        simp only [List.mem_cons, List.not_mem_nil, or_false]
        constructor
        · intro h; exact absurd h (by decide)
        · intro h; exact absurd h hf

/-- C9 counterexample: the claim says `"no"` selects non-headless mode,
but `strconv.ParseBool` rejects `"no"`, so the code stays headless. -/
theorem C9_counterexample :
    GetHeadlessMode "no" = true ∧ ¬ GetHeadlessMode "no" = false := by
  decide

/-- C6 (amended): for non-empty input `parseAccountsString` returns the
JSON-decoded array when the trimmed input starts with `[` and decoding
succeeds, and otherwise the comma split of the raw input; the empty
string, however, yields the empty list (Go `nil`) rather than the
one-element comma split `[""]`.  The three documented examples hold. -/
theorem C6_parseAccountsString (s : String) :
    parseAccountsString s =
      (if s = "" then []
       else if goHasPrefix (goTrimSpace s) "[" then
         (goUnmarshalStringArray s).getD (goSplit s ',')
       else goSplit s ',')
    ∧ parseAccountsString "[\"u1:p1\",\"u2:p2\"]" = ["u1:p1", "u2:p2"]
    ∧ parseAccountsString "u1:p1,u2:p2" = ["u1:p1", "u2:p2"]
    ∧ parseAccountsString "[not json" = ["[not json"] := by
  refine ⟨?_, by decide, by decide, by decide⟩
  unfold parseAccountsString
  rcases h : goUnmarshalStringArray s with _ | arr <;> simp [h]

/-- C6 counterexample: on the empty string the code returns no accounts
(Go `nil`), while a comma split of the empty string — what the claim's
"otherwise" branch prescribes — is the one-element list `[""]`. -/
theorem C6_counterexample :
    parseAccountsString "" = [] ∧ goSplit "" ',' = [""] ∧
    parseAccountsString "" ≠ goSplit "" ',' := by
  decide

/-! Lookup lemmas for the store operations. -/

theorem lookup_storeInsert_self (s : JobStore) (jobID : String)
    (job : DownloadJob) :
    (storeInsert s jobID job).lookup jobID = some job := by
  simp [storeInsert, List.lookup]

theorem lookup_filter_ne (s : JobStore) (k jobID : String) (hk : k ≠ jobID) :
    (s.filter (fun p => p.1 ≠ jobID)).lookup k = s.lookup k := by
  induction s with
  | nil => rfl
  | cons a rest ih =>
    obtain ⟨ak, aj⟩ := a
    by_cases ha : ak = jobID
    · subst ha
      have hbk : (k == ak) = false := beq_false_of_ne hk
      simp only [List.filter_cons, ne_eq, decide_not]
      simp only [decide_True, Bool.not_true, List.lookup, hbk]
      · simpa [ne_eq, decide_not] using ih
    · by_cases hka : k = ak
      · subst hka
        simp only [List.filter_cons, ne_eq, decide_not]
        simp [ha, List.lookup]
      · have hbk : (k == ak) = false := beq_false_of_ne hka
        simp only [List.filter_cons, ne_eq, decide_not]
        by_cases hd : (decide (ak = jobID)) = true
        · simp_all
        · simp only [Bool.not_eq_true] at hd
          simp only [hd, Bool.not_false, if_true, List.lookup, hbk]
          simpa [ne_eq, decide_not] using ih

theorem lookup_storeInsert_ne (s : JobStore) (k jobID : String)
    (job : DownloadJob) (hk : k ≠ jobID) :
    (storeInsert s jobID job).lookup k = s.lookup k := by
  have hbk : (k == jobID) = false := beq_false_of_ne hk
  simp only [storeInsert, List.lookup, hbk]
  exact lookup_filter_ne s k jobID hk

theorem lookup_storeUpdate (s : JobStore) (jobID k : String)
    (f : DownloadJob → DownloadJob) :
    (storeUpdate s jobID f).lookup k =
      (s.lookup k).map (fun j => if k = jobID then f j else j) := by
  induction s with
  | nil => rfl
  | cons a rest ih =>
    obtain ⟨ak, aj⟩ := a
    have hbranch :
        (if ((ak, aj) : String × DownloadJob).1 = jobID then
          ((ak, aj).1, f (ak, aj).2)
         else (ak, aj)) = (ak, if ak = jobID then f aj else aj) := by
      by_cases ha : ak = jobID <;> simp [ha]
    simp only [storeUpdate, List.map_cons, hbranch]
    cases hbk : (k == ak) with
    | true =>
      have hkak : k = ak := by simpa using hbk
      subst hkak
      simp only [List.lookup, hbk]
      simp
    | false =>
      have hkak : k ≠ ak := by simpa using hbk
      simp only [List.lookup, hbk]
      simpa [storeUpdate] using ih

theorem applyOp_completedAtInv (s : JobStore)
    (hs : ∀ k j, s.lookup k = some j → CompletedAtInv j) (op : StoreOp) :
    ∀ k j, (applyOp s op).lookup k = some j → CompletedAtInv j := by
  intro k j h
  cases op with
  | create jobID now =>
    by_cases hk : k = jobID
    · subst hk
      rw [applyOp, processAsyncCreate, lookup_storeInsert_self] at h
      cases h
      simp [CompletedAtInv]
    · rw [applyOp, processAsyncCreate, lookup_storeInsert_ne _ _ _ _ hk] at h
      exact hs k j h
  | progress jobID p =>
    rw [applyOp, updateJobProgress, lookup_storeUpdate] at h
    rcases hsk : s.lookup k with _ | j0 <;> rw [hsk] at h
    · cases h
    · simp only [Option.map_some'] at h
      have hj0 := hs k j0 hsk
      by_cases hk : k = jobID
      · rw [if_pos hk] at h
        cases h
        simpa [CompletedAtInv] using hj0
      · rw [if_neg hk] at h
        cases h
        exact hj0
  | fail jobID msg now =>
    rw [applyOp, updateJobStatus, lookup_storeUpdate] at h
    rcases hsk : s.lookup k with _ | j0 <;> rw [hsk] at h
    · cases h
    · simp only [Option.map_some'] at h
      by_cases hk : k = jobID
      · rw [if_pos hk] at h
        cases h
        by_cases hm : msg ≠ "" <;> simp [CompletedAtInv, hm]
      · rw [if_neg hk] at h
        have hj0 := hs k j0 hsk
        cases h
        exact hj0
  | complete jobID now =>
    rw [applyOp, completeJob, lookup_storeUpdate] at h
    rcases hsk : s.lookup k with _ | j0 <;> rw [hsk] at h
    · cases h
    · simp only [Option.map_some'] at h
      by_cases hk : k = jobID
      · rw [if_pos hk] at h
        cases h
        simp [CompletedAtInv]
      · rw [if_neg hk] at h
        have hj0 := hs k j0 hsk
        cases h
        exact hj0

theorem applyOps_completedAtInv (ops : List StoreOp) :
    ∀ s : JobStore, (∀ k j, s.lookup k = some j → CompletedAtInv j) →
      ∀ k j, (applyOps s ops).lookup k = some j → CompletedAtInv j := by
  induction ops with
  | nil => intro s hs; exact hs
  | cons op rest ih =>
    intro s hs
    rw [applyOps, List.foldl_cons]
    exact ih (applyOp s op) (applyOp_completedAtInv s hs op)

/-- C2: in every store state reachable by the writes the program
performs (job creation, progress writes, the panic handler's
`failed` write, the loop-completion write), a job's `CompletedAt`
is set if and only if its status is `completed` or `failed`. -/
theorem C2_completedAt_iff_terminal (ops : List StoreOp) (jobID : String)
    (job : DownloadJob)
    (h : (applyOps [] ops).lookup jobID = some job) :
    job.completedAt.isSome ↔
      (job.status = "completed" ∨ job.status = "failed") :=
  applyOps_completedAtInv ops [] (by intro k j hkj; cases hkj) jobID job h

/-- Witness for `C2_completedAt_iff_terminal` on a concrete trace. -/
theorem C2_completedAt_iff_terminal_witness :
    (applyOps [] [StoreOp.create "j" 0, StoreOp.progress "j" 50,
      StoreOp.complete "j" 5]).lookup "j" =
      some { id := "j", status := "completed", progress := 100,
             totalRecords := 0, errorMessage := "", startedAt := 0,
             completedAt := some 5 }
    ∧ ((some (5 : Nat)).isSome ↔
        (("completed" : String) = "completed" ∨
         ("completed" : String) = "failed")) :=
  ⟨by decide,
   C2_completedAt_iff_terminal
     [StoreOp.create "j" 0, StoreOp.progress "j" 50, StoreOp.complete "j" 5]
     "j"
     { id := "j", status := "completed", progress := 100, totalRecords := 0,
       errorMessage := "", startedAt := 0, completedAt := some 5 }
     (by decide)⟩

/-! ### C1: progress over a job's lifetime -/

theorem applyOp_progress_singleton (jobID : String) (job : DownloadJob)
    (v : Nat) :
    applyOp [(jobID, job)] (StoreOp.progress jobID v) =
      [(jobID, { job with progress := v })] := by
  simp [applyOp, updateJobProgress, storeUpdate]

theorem applyOp_complete_singleton (jobID : String) (job : DownloadJob)
    (t : Nat) :
    applyOp [(jobID, job)] (StoreOp.complete jobID t) =
      [(jobID, { job with
                 status := "completed"
                 progress := 100
                 completedAt := some t })] := by
  simp [applyOp, completeJob, storeUpdate]

theorem progressOf_singleton (jobID : String) (job : DownloadJob) :
    progressOf [(jobID, job)] jobID = job.progress := by
  simp [progressOf, List.lookup]

/-- The progress values a poll observes along the stores of a loop run
followed by the completion write. -/
theorem scanl_progress_run (jobID : String) (t1 : Nat) (vals : List Nat)
    (job : DownloadJob) :
    (List.scanl applyOp [(jobID, job)]
      ((vals.map (StoreOp.progress jobID)) ++
        [StoreOp.complete jobID t1])).map (fun s => progressOf s jobID)
    = job.progress :: (vals ++ [100]) := by
  induction vals generalizing job with
  | nil =>
    simp [List.scanl, applyOp_complete_singleton, progressOf_singleton]
  | cons v vs ih =>
    rw [List.map_cons, List.cons_append, List.scanl_cons,
      List.singleton_append, List.map_cons, applyOp_progress_singleton,
      ih { job with progress := v }, progressOf_singleton]
    simp

theorem applyOps_progress_complete (vals : List Nat) (jobID : String)
    (t1 : Nat) (job : DownloadJob) :
    (applyOps [(jobID, job)]
      ((vals.map (StoreOp.progress jobID)) ++
        [StoreOp.complete jobID t1])).lookup jobID
    = some { job with
             status := "completed"
             progress := 100
             completedAt := some t1 } := by
  induction vals generalizing job with
  | nil =>
    simp only [List.map_nil, List.nil_append, applyOps, List.foldl_cons,
      List.foldl_nil, applyOp_complete_singleton]
    simp [List.lookup]
  | cons v vs ih =>
    simp only [List.map_cons, List.cons_append, applyOps, List.foldl_cons,
      applyOp_progress_singleton]
    exact ih { job with progress := v }

theorem loopProgress_le_100 (n i : Nat) (h : i < n) :
    loopProgress n i ≤ 100 := by
  unfold loopProgress
  calc (i + 1) * 100 / n ≤ n * 100 / n :=
        Nat.div_le_div_right (Nat.mul_le_mul_right 100 h)
    _ = 100 := Nat.mul_div_cancel_left 100 (by omega)

theorem loopProgress_mono (n i j : Nat) (h : i ≤ j) :
    loopProgress n i ≤ loopProgress n j :=
  Nat.div_le_div_right (Nat.mul_le_mul_right 100 (by omega))

/-- C1 (amended): along a panic-free run of the async unit the progress
values observed by successive `GetJobStatus` polls form a non-decreasing
sequence, and the final state is terminal (`completed`) with progress
100; the panic path, however, writes `failed` with progress 0, lowering
any progress already made. -/
theorem C1_progress_monotone_faultFree (jobID : String) (n t0 t1 : Nat) :
    List.Chain' (· ≤ ·)
      ((List.scanl applyOp [] (faultFreeOps jobID n t0 t1)).map
        (fun s => progressOf s jobID))
    ∧ GetJobStatus (applyOps [] (faultFreeOps jobID n t0 t1)) jobID =
        some { id := jobID, status := "completed", progress := 100,
               totalRecords := 0, errorMessage := "", startedAt := t0,
               completedAt := some t1 }
    ∧ (∀ (s : JobStore) (job : DownloadJob) (msg : String) (now : Nat),
        s.lookup jobID = some job →
        GetJobStatus (applyOp s (StoreOp.fail jobID msg now)) jobID =
          some { job with
                 status := "failed"
                 progress := 0
                 errorMessage := if msg ≠ "" then msg else job.errorMessage
                 completedAt := some now }) := by
  refine ⟨?_, ?_, ?_⟩
  · have hseq :
        (List.scanl applyOp [] (faultFreeOps jobID n t0 t1)).map
          (fun s => progressOf s jobID)
        = 0 :: 0 :: (((List.range n).map (loopProgress n)) ++ [100]) := by
      unfold faultFreeOps
      rw [List.scanl_cons, List.singleton_append, List.map_cons]
      have hcreate : applyOp [] (StoreOp.create jobID t0) =
          [(jobID, { id := jobID, status := "processing", progress := 0,
                     totalRecords := 0, errorMessage := "", startedAt := t0,
                     completedAt := none })] := rfl
      have hmm : List.map (fun i => StoreOp.progress jobID (loopProgress n i))
          (List.range n) =
          List.map (StoreOp.progress jobID)
            (List.map (loopProgress n) (List.range n)) := by
        rw [List.map_map]
        rfl
      rw [hcreate, hmm, scanl_progress_run]
      simp [progressOf]
    rw [hseq]
    rcases n with _ | m
    · simp [List.chain'_cons]
    · rw [List.chain'_cons]
      refine ⟨le_refl 0, ?_⟩
      rw [List.chain'_cons']
      refine ⟨fun y _ => Nat.zero_le y, ?_⟩
      rw [List.chain'_append]
      refine ⟨?_, List.chain'_singleton _, ?_⟩
      · rw [List.chain'_map, List.chain'_range_succ]
        intro k _
        exact loopProgress_mono (m + 1) k (k + 1) (by omega)
      · intro x hx y hy
        simp only [List.head?_cons, Option.mem_def, Option.some.injEq] at hy
        subst hy
        obtain ⟨hne, hxl⟩ := List.mem_getLast?_eq_getLast hx
        have hmem : x ∈ (List.range (m + 1)).map (loopProgress (m + 1)) := by
          rw [hxl]
          exact List.getLast_mem hne
        obtain ⟨i, hi, hix⟩ := List.mem_map.mp hmem
        rw [← hix]
        exact loopProgress_le_100 (m + 1) i (List.mem_range.mp hi)
  · unfold faultFreeOps GetJobStatus
    rw [applyOps, List.foldl_cons, ← applyOps]
    have hcreate : applyOp [] (StoreOp.create jobID t0) =
        [(jobID, { id := jobID, status := "processing", progress := 0,
                   totalRecords := 0, errorMessage := "", startedAt := t0,
                   completedAt := none })] := rfl
    have hmm : List.map (fun i => StoreOp.progress jobID (loopProgress n i))
        (List.range n) =
        List.map (StoreOp.progress jobID)
          (List.map (loopProgress n) (List.range n)) := by
      rw [List.map_map]
      rfl
    rw [hcreate, hmm, applyOps_progress_complete]
  · intro s job msg now h
    unfold GetJobStatus
    rw [applyOp, updateJobStatus, lookup_storeUpdate, h]
    simp only [Option.map_some', if_pos rfl]
    by_cases hm : msg = "" <;> simp [hm]

/-- Witness for `C1_progress_monotone_faultFree`, exercising the panic
path at a concrete mid-run store. -/
theorem C1_progress_monotone_faultFree_witness :
    (([("j", { id := "j", status := "processing", progress := 50,
               totalRecords := 0, errorMessage := "", startedAt := 0,
               completedAt := none })] : JobStore).lookup "j" =
        some { id := "j", status := "processing", progress := 50,
               totalRecords := 0, errorMessage := "", startedAt := 0,
               completedAt := none })
    ∧ GetJobStatus
        (applyOp [("j", { id := "j", status := "processing", progress := 50,
                          totalRecords := 0, errorMessage := "",
                          startedAt := 0, completedAt := none })]
          (StoreOp.fail "j" "Internal error: x" 7)) "j" =
        some { id := "j", status := "failed", progress := 0,
               totalRecords := 0
               errorMessage :=
                 if ("Internal error: x" : String) ≠ "" then
                   "Internal error: x"
                 else ""
               startedAt := 0
               completedAt := some 7 } :=
  ⟨by decide,
   (C1_progress_monotone_faultFree "j" 1 0 1).2.2
     [("j", { id := "j", status := "processing", progress := 50,
              totalRecords := 0, errorMessage := "", startedAt := 0,
              completedAt := none })]
     { id := "j", status := "processing", progress := 50, totalRecords := 0,
       errorMessage := "", startedAt := 0, completedAt := none }
     "Internal error: x" 7 (by decide)⟩

/-- C1 counterexample: with two accounts, the loop first writes progress
50; a panic then drives the handler's
`updateJobStatus(jobID, "failed", 0, msg)`, and the next poll observes
progress 0 — the sequence 50, 0 decreases, and the job ends terminal
(`failed`) with progress 0, not 100. -/
theorem C1_counterexample :
    progressOf (applyOps [] [StoreOp.create "j" 0,
      StoreOp.progress "j" (loopProgress 2 0)]) "j" = 50
    ∧ progressOf (applyOps [] [StoreOp.create "j" 0,
        StoreOp.progress "j" (loopProgress 2 0),
        StoreOp.fail "j" "Internal error: panic" 7]) "j" = 0
    ∧ GetJobStatus (applyOps [] [StoreOp.create "j" 0,
        StoreOp.progress "j" (loopProgress 2 0),
        StoreOp.fail "j" "Internal error: panic" 7]) "j" =
      some { id := "j", status := "failed", progress := 0,
             totalRecords := 0, errorMessage := "Internal error: panic",
             startedAt := 0, completedAt := some 7 } := by
  decide

/-! ### C3: the loop always ends in `completed` at 100 -/

theorem asyncLoopStep_fst (retrieve : String → String → Except String Unit)
    (jobID : String) (n : Nat) (st : JobStore × List String)
    (ia : Nat × String) :
    (asyncLoopStep retrieve jobID n st ia).1 =
      updateJobProgress st.1 jobID (loopProgress n ia.1) := by
  unfold asyncLoopStep
  rcases h : downloadAccountData retrieve ia.2 with e | u <;> simp [h]

theorem foldl_asyncLoopStep_fst
    (retrieve : String → String → Except String Unit) (jobID : String)
    (n : Nat) (l : List (Nat × String)) :
    ∀ st : JobStore × List String,
    (l.foldl (asyncLoopStep retrieve jobID n) st).1 =
      l.foldl (fun s ia => updateJobProgress s jobID (loopProgress n ia.1))
        st.1 := by
  induction l with
  | nil => intro st; rfl
  | cons ia rest ih =>
    intro st
    rw [List.foldl_cons, List.foldl_cons, ih, asyncLoopStep_fst]

theorem foldl_updateProgress_lookup (jobID : String) (n : Nat)
    (l : List (Nat × String)) :
    ∀ (s : JobStore) (job : DownloadJob), s.lookup jobID = some job →
    ∃ p, (l.foldl
        (fun st ia => updateJobProgress st jobID (loopProgress n ia.1))
        s).lookup jobID = some { job with progress := p } := by
  induction l with
  | nil =>
    intro s job h
    exact ⟨job.progress, h⟩
  | cons ia rest ih =>
    intro s job h
    have h' : (updateJobProgress s jobID (loopProgress n ia.1)).lookup jobID
        = some { job with progress := loopProgress n ia.1 } := by
      rw [updateJobProgress, lookup_storeUpdate, h]
      simp
    rw [List.foldl_cons]
    obtain ⟨p, hp⟩ := ih _ _ h'
    exact ⟨p, hp⟩

/-- C3: a fault-free async unit always ends with the job `completed` at
progress 100, `CompletedAt` stamped and the error message still empty —
and the resulting job store does not depend on the retrieval outcomes
at all (account failures only add log lines). -/
theorem C3_loop_always_completes
    (retrieve : String → String → Except String Unit) (s : JobStore)
    (jobID : String) (accounts : List String) (t0 t1 : Nat) :
    (processAsyncFaultFree retrieve s jobID accounts t0 t1).1.lookup jobID =
      some { id := jobID, status := "completed", progress := 100,
             totalRecords := 0, errorMessage := "", startedAt := t0,
             completedAt := some t1 }
    ∧ (processAsyncFaultFree retrieve s jobID accounts t0 t1).1 =
      (processAsyncFaultFree (fun _ _ => Except.ok ()) s jobID accounts
        t0 t1).1 := by
  constructor
  · simp only [processAsyncFaultFree]
    rw [completeJob, lookup_storeUpdate, foldl_asyncLoopStep_fst]
    have hc : (processAsyncCreate s jobID t0).lookup jobID =
        some { id := jobID, status := "processing", progress := 0,
               totalRecords := 0, errorMessage := "", startedAt := t0,
               completedAt := none } :=
      lookup_storeInsert_self _ _ _
    obtain ⟨p, hp⟩ :=
      foldl_updateProgress_lookup jobID accounts.length accounts.enum _ _ hc
    rw [hp]
    simp
  · simp only [processAsyncFaultFree]
    rw [completeJob, completeJob, foldl_asyncLoopStep_fst,
      foldl_asyncLoopStep_fst]

/-! ### C5 and C10: the two DownloadAsync copies -/

theorem goSplit_ne_nil (s : String) (c : Char) : goSplit s c ≠ [] := by
  unfold goSplit
  simp [splitCharList_ne_nil]

theorem getAllAccountIDs_length (env : Env) :
    (GetAllAccountIDs env).length =
      (GetAllAccountsWithCredentials env).length := by
  unfold GetAllAccountIDs
  generalize GetAllAccountsWithCredentials env = l
  induction l with
  | nil => rfl
  | cons a rest ih =>
    rw [List.filterMap_cons]
    rcases h : goSplit (goTrimSpace a) ':' with _ | ⟨p0, ps⟩
    · exact absurd h (goSplit_ne_nil _ _)
    · simp [ih]

/-- C5: `DownloadAsync` (the copy whose fallback is
`GetAllAccountsWithCredentials`) with no explicit accounts and no
configured accounts answers `jobId = ""`, `failed`, leaves the store
untouched and never calls `ProcessAsync`; with accounts available it
calls `ProcessAsync` with a fresh id and the resolved list and
immediately answers that id with `pending`; and against an empty store
every status query is a not-found. -/
theorem C5_downloadAsync_no_accounts (env : Env) (s : JobStore)
    (req : List String) (jid : String) (now : Nat) :
    (req.length = 0 → (GetAllAccountsWithCredentials env).length = 0 →
      DownloadAsyncCreds env s req jid now =
        ({ jobId := "", status := "failed"
           message := "No accounts configured" }, s, none))
    ∧ (req.length = 0 → (GetAllAccountsWithCredentials env).length ≠ 0 →
      DownloadAsyncCreds env s req jid now =
        ({ jobId := jid, status := "pending"
           message := "Download job started" },
         processAsyncCreate s jid now,
         some (jid, GetAllAccountsWithCredentials env)))
    ∧ (req.length ≠ 0 →
      DownloadAsyncCreds env s req jid now =
        ({ jobId := jid, status := "pending"
           message := "Download job started" },
         processAsyncCreate s jid now, some (jid, req)))
    ∧ (∀ q, GetJobStatus ([] : JobStore) q = none) := by
  refine ⟨?_, ?_, ?_, fun q => rfl⟩
  · intro h1 h2
    unfold DownloadAsyncCreds
    rw [if_pos h1]
    simp [h2]
  · intro h1 h2
    unfold DownloadAsyncCreds downloadAsyncStart
    rw [if_pos h1]
    simp only [h2, if_neg]
    simp
  · intro h1
    unfold DownloadAsyncCreds downloadAsyncStart
    rw [if_neg h1]

/-- Witness for `C5_downloadAsync_no_accounts` on the empty
configuration. -/
theorem C5_downloadAsync_no_accounts_witness :
    ([] : List String).length = 0
    ∧ (GetAllAccountsWithCredentials ⟨"", "", ""⟩).length = 0
    ∧ DownloadAsyncCreds ⟨"", "", ""⟩ [] [] "x" 0 =
        ({ jobId := "", status := "failed"
           message := "No accounts configured" }, ([] : JobStore), none) :=
  ⟨rfl, by decide,
   (C5_downloadAsync_no_accounts ⟨"", "", ""⟩ [] [] "x" 0).1 rfl (by decide)⟩

/-- C10 counterexample: with one configured credential `"u1:p1"` and no
explicit accounts, the copy in `download_service_grpc.go` hands
`ProcessAsync` the bare id `["u1"]` while the other copy hands the full
credential `["u1:p1"]` — the two facades are not extensionally equal. -/
theorem C10_counterexample :
    (DownloadAsyncIDs ⟨"u1:p1", "", ""⟩ [] [] "x" 0).2.2 =
      some ("x", ["u1"])
    ∧ (DownloadAsyncCreds ⟨"u1:p1", "", ""⟩ [] [] "x" 0).2.2 =
      some ("x", ["u1:p1"])
    ∧ (DownloadAsyncIDs ⟨"u1:p1", "", ""⟩ [] [] "x" 0).2.2 ≠
      (DownloadAsyncCreds ⟨"u1:p1", "", ""⟩ [] [] "x" 0).2.2 := by
  decide

/-- C10 (amended): the two `DownloadAsync` copies agree on every
request that carries accounts and on the nothing-configured failure
path (the two fallback lists always have equal length, so they fail
together); when the caller omits accounts and credentials are
configured, the grpc-file copy hands `ProcessAsync` the bare account
ids while the other copy hands the full `id:password` strings. -/
theorem C10_downloadAsync_divergence (env : Env) (s : JobStore)
    (req : List String) (jid : String) (now : Nat) :
    (GetAllAccountIDs env).length =
      (GetAllAccountsWithCredentials env).length
    ∧ (req.length ≠ 0 →
        DownloadAsyncIDs env s req jid now =
          DownloadAsyncCreds env s req jid now)
    ∧ ((GetAllAccountsWithCredentials env).length = 0 →
        DownloadAsyncIDs env s req jid now =
          DownloadAsyncCreds env s req jid now)
    ∧ (req.length = 0 → (GetAllAccountsWithCredentials env).length ≠ 0 →
        (DownloadAsyncIDs env s req jid now).2.2 =
          some (jid, GetAllAccountIDs env)
        ∧ (DownloadAsyncCreds env s req jid now).2.2 =
          some (jid, GetAllAccountsWithCredentials env)) := by
  refine ⟨getAllAccountIDs_length env, ?_, ?_, ?_⟩
  · intro h1
    unfold DownloadAsyncIDs DownloadAsyncCreds
    rw [if_neg h1, if_neg h1]
  · intro h2
    by_cases h1 : req.length = 0
    · have hids : (GetAllAccountIDs env).length = 0 := by
        rw [getAllAccountIDs_length env, h2]
      unfold DownloadAsyncIDs DownloadAsyncCreds
      rw [if_pos h1, if_pos h1]
      simp [hids, h2]
    · unfold DownloadAsyncIDs DownloadAsyncCreds
      rw [if_neg h1, if_neg h1]
  · intro h1 h2
    have hids : (GetAllAccountIDs env).length ≠ 0 := by
      rw [getAllAccountIDs_length env]
      exact h2
    unfold DownloadAsyncIDs DownloadAsyncCreds downloadAsyncStart
    rw [if_pos h1, if_pos h1]
    simp only [hids, h2, if_neg]
    simp

/-- Witness for `C10_downloadAsync_divergence` on one configured
credential. -/
theorem C10_downloadAsync_divergence_witness :
    ([] : List String).length = 0
    ∧ (GetAllAccountsWithCredentials ⟨"u1:p1", "", ""⟩).length ≠ 0
    ∧ ((DownloadAsyncIDs ⟨"u1:p1", "", ""⟩ [] [] "x" 0).2.2 =
        some ("x", GetAllAccountIDs ⟨"u1:p1", "", ""⟩)
       ∧ (DownloadAsyncCreds ⟨"u1:p1", "", ""⟩ [] [] "x" 0).2.2 =
        some ("x", GetAllAccountsWithCredentials ⟨"u1:p1", "", ""⟩)) :=
  ⟨rfl, by decide,
   (C10_downloadAsync_divergence ⟨"u1:p1", "", ""⟩ [] [] "x" 0).2.2.2
     rfl (by decide)⟩

end EtcMeisai

